import Mathlib

/-!
Verification of the map-generation pipeline of `simple_auto_beatsage_script`
(`main.py`) against its natural-language specification.

Shallow embedding conventions:
* Python strings are modelled as `List Char`; bytes as `List Nat`.
* I/O outcomes (the TinyTag parse, each HTTP request, the zip extraction)
  are supplied by oracle values, so every function is a pure, executable
  Lean function of the oracle.
* Python exceptions are modelled by the inductive `PyExc`, which records
  the exception class (`RuntimeError`, `requests.exceptions.RequestException`,
  `json.JSONDecodeError`, or any other `Exception` subclass) together with
  an `ErrMsg` identifying which message the source formats at that raise site.
* Filesystem effects of one pipeline run are modelled by a `NameState`
  (does `<name>.zip` exist?  does the directory `<name>/` exist?) threaded
  through `get_map`, plus a trace of `Event`s for counting polls/sleeps/writes.
-/

deriving instance DecidableEq for Except

namespace BeatSage

/-! ## The filename sanitiser (`sanitize_filename`, main.py lines 121-139) -/

/-- The characters `sanitize_filename` replaces with an underscore
(`invalid_chars = '<>:"/\\|?*'`, main.py line 132). -/
def invalidChars : List Char := ['<', '>', ':', '\"', '/', '\\', '|', '?', '*']

/-- The sequential `filename.replace(char, '_')` loop of main.py lines 133-134.
Each replacement introduces only `'_'`, which is itself never replaced, so the
sequential loop over `invalid_chars` equals one simultaneous map. -/
def replaceInvalid (s : List Char) : List Char :=
  s.map fun c => if c ∈ invalidChars then '_' else c

/-- Membership in the strip set of `filename.strip('. ')` (main.py line 136). -/
def isStripChar (c : Char) : Bool := c = '.' || c = ' '

/-- Python `str.strip('. ')`: remove the longest prefix and suffix consisting
of `'.'` and `' '` characters (main.py line 136). -/
def pyStrip (s : List Char) : List Char :=
  (((s.dropWhile isStripChar).reverse.dropWhile isStripChar)).reverse

/-- The whitespace characters on which Python `str.split()` (no argument)
splits: exactly the characters for which `str.isspace` holds
(ASCII 0x09-0x0D, 0x1C-0x1F, space, plus the Unicode space characters). -/
def isPySpace (c : Char) : Bool :=
  (0x09 ≤ c.toNat && c.toNat ≤ 0x0D) || (0x1C ≤ c.toNat && c.toNat ≤ 0x1F) ||
  c.toNat = 0x20 || c.toNat = 0x85 || c.toNat = 0xA0 || c.toNat = 0x1680 ||
  (0x2000 ≤ c.toNat && c.toNat ≤ 0x200A) ||
  c.toNat = 0x2028 || c.toNat = 0x2029 || c.toNat = 0x202F ||
  c.toNat = 0x205F || c.toNat = 0x3000

/-- Scanner for Python `str.split()` (no separator): accumulate the current
word in `acc` (reversed); emit it when whitespace or the end of the string is
reached; runs of whitespace produce no empty words. -/
def pySplitAux : List Char → List Char → List (List Char)
  | [], acc => if acc = [] then [] else [acc.reverse]
  | c :: rest, acc =>
    if isPySpace c then
      if acc = [] then pySplitAux rest []
      else acc.reverse :: pySplitAux rest []
    else pySplitAux rest (c :: acc)

/-- Python `filename.split()` (main.py line 138). -/
def pySplit (s : List Char) : List (List Char) := pySplitAux s []

/-- Python `' '.join(words)` (main.py line 138). -/
def pyJoin : List (List Char) → List Char
  | [] => []
  | [t] => t
  | t :: t' :: ts => t ++ ' ' :: pyJoin (t' :: ts)

/-- `sanitize_filename` (main.py lines 121-139): replace the invalid
characters with underscores, strip leading/trailing dots and spaces, then
collapse whitespace runs via `' '.join(filename.split())`. -/
def sanitize_filename (s : List Char) : List Char :=
  pyJoin (pySplit (pyStrip (replaceInvalid s)))

/-! ## Data model of the per-file pipeline (`main.py` lines 96-300, 333-386) -/

/-- Python `Path(name).stem`: the final component without its suffix.
`pathlib` locates the last `'.'`; a dot at index 0 or in final position does
not count as a suffix separator, in which case the whole name is the stem. -/
def pathStem (name : List Char) : List Char :=
  match name.reverse.findIdx? fun c => c = '.' with
  | none => name
  | some j =>
    let i := name.length - 1 - j
    if 0 < i ∧ i < name.length - 1 then name.take i else name

/-- The error messages `main.py` formats at its raise sites. -/
inductive ErrMsg
  | failedReadTags
  | sizeLimitExceeded
  | generationFailed
  | generationTimedOut
  | httpError (code : Nat)
  | connectionFailure
  | invalidJson
  | missingKey
  | badZip
  | networkErrorOccurred (inner : ErrMsg)
  | invalidJsonResponse (inner : ErrMsg)
  | unexpectedError (inner : ErrMsg)
  deriving DecidableEq, Repr

/-- A Python exception: its class together with the message built at the
raise site.  `failedReadTags` is the `RuntimeError` of `get_mp3_tag` line
119; `sizeLimitExceeded`, `generationFailed` and `generationTimedOut` are
the `RuntimeError`s of lines 224, 246 and 254; `httpError` is what
`raise_for_status` raises (a `RequestException` subclass);
`connectionFailure` any other `requests` transport failure; `invalidJson` a
`json.JSONDecodeError`; `missingKey` the `KeyError` of a `['id']`/`['status']`
subscript; `badZip` a `zipfile` extraction failure.  `otherExc` stands for
every `Exception` subclass other than the three classes the source handles
by name. -/
inductive PyExc
  | runtimeError (msg : ErrMsg)
  | requestException (msg : ErrMsg)
  | jsonDecodeError (msg : ErrMsg)
  | otherExc (msg : ErrMsg)
  deriving DecidableEq, Repr

/-- Result of `TinyTag.get(file, image=True)` when the parse succeeds: the
`title`/`artist` attributes may be `None`, `images.any` may be `None` (no
embedded image), and an `Image`'s `data` may itself be `None`. -/
structure TinyTagOut where
  title : Option (List Char)
  artist : Option (List Char)
  imagesAny : Option (Option (List Nat))
  deriving DecidableEq, Repr

/-- Python `x or ''` on an optional string: `None` and `''` give `''`. -/
def pyOrEmpty (x : Option (List Char)) : List Char :=
  match x with
  | none => []
  | some s => s

/-- Python `x or b''` on optional bytes. -/
def pyOrEmptyBytes (x : Option (List Nat)) : List Nat :=
  match x with
  | none => []
  | some b => b

/-- `get_mp3_tag` (main.py lines 96-119).  The argument is the outcome of
`TinyTag.get`: `Except.error` means the file could not be opened or parsed.
The source reads `tag.images.any.data`; when the file parses but carries no
embedded image, `tag.images.any` is `None`, the attribute access raises
`AttributeError`, and the function's own `except` clause turns it into the
same `RuntimeError` as a parse failure. -/
def get_mp3_tag (tt : Except Unit TinyTagOut) :
    Except PyExc (List Char × List Char × List Nat) :=
  match tt with
  | .error _ => .error (.runtimeError .failedReadTags)
  | .ok t =>
    match t.imagesAny with
    | none => .error (.runtimeError .failedReadTags)
    | some img => .ok (pyOrEmpty t.title, pyOrEmpty t.artist, pyOrEmptyBytes img)

/-- The naming logic of `get_output_filename` after the tag read (main.py
lines 151-161): fall back to the stem when either tag is missing, otherwise
`f"{sanitize_filename(title)} - {sanitize_filename(artist)}"`. -/
def derive_name (stem title artist : List Char) : List Char :=
  if title = [] ∨ artist = [] then stem
  else sanitize_filename title ++ ' ' :: '-' :: ' ' :: sanitize_filename artist

/-- `get_output_filename` (main.py lines 141-161): read the tags (which can
raise) and derive the output name. -/
def get_output_filename (fileName : List Char) (tt : Except Unit TinyTagOut) :
    Except PyExc (List Char) :=
  match get_mp3_tag tt with
  | .error e => .error e
  | .ok (title, artist, _) => .ok (derive_name (pathStem fileName) title artist)

/-- Outcome of one HTTP request: either the transport layer raised a
`requests.exceptions.RequestException`, or a response arrived with a status
code and a body. -/
inductive HttpOutcome (α : Type)
  | transportFail
  | resp (code : Nat) (body : α)
  deriving DecidableEq, Repr

/-- A JSON body holding the one field the source reads: `Except.error`
models a `json.JSONDecodeError`, `Except.ok none` a decoded document missing
the required key (the subscript then raises `KeyError`), and
`Except.ok (some v)` the field's value. -/
abbrev JsonField := Except Unit (Option (List Char))

/-- Oracle for the outside world during one `get_map` run: the submit
response, the heartbeat response of each poll attempt, the download
response, and the outcome of `zipfile.extractall` (`Except.ok created`
reports whether the extraction directory exists afterwards — an archive with
no entries creates none). -/
structure NetOracle where
  submitResp : HttpOutcome JsonField
  heartbeat : Nat → HttpOutcome JsonField
  downloadResp : HttpOutcome Unit
  extractResult : Except Unit Bool

/-- Filesystem state at one derived output name: whether `<name>.zip`
exists and whether the directory `<name>/` exists. -/
structure NameState where
  zip : Bool
  dir : Bool
  deriving DecidableEq, Repr

/-- Observable actions of one `get_map` run: one heartbeat GET, one
`time.sleep(14)`, the download GET, writing the archive, a completed
`extractall`, the `unlink` of the archive. -/
inductive Event
  | polled
  | slept
  | downloaded
  | wroteZip
  | extracted
  | deletedZip
  deriving DecidableEq, Repr

/-- The status string `"DONE"` (main.py line 242). -/
def doneStr : List Char := ['D', 'O', 'N', 'E']

/-- The status string `"ERROR"` (main.py line 245). -/
def errorStr : List Char := ['E', 'R', 'R', 'O', 'R']

/-- `max_attempts = 75` (main.py line 233, "17.5 minutes maximum"). -/
def max_attempts : Nat := 75

/-- The 14-second inter-poll `time.sleep` (main.py line 251). -/
def sleep_interval : Nat := 14

/-- Python `response.raise_for_status()` raises exactly for codes in the
4xx/5xx range. -/
def isHttpError (code : Nat) : Bool := 400 ≤ code && code < 600

/-- The polling loop of `get_map` (main.py lines 233-254): `attempt` is the
current attempt counter, `remaining = max_attempts - attempt` iterations are
left.  Each iteration performs one heartbeat request and decodes it; `DONE`
breaks out of the loop, `ERROR` raises, any other status sleeps 14 s,
increments the counter and retries; when the counter reaches `max_attempts`
the `while`-`else` raises the timeout `RuntimeError`. -/
def pollLoop (hb : Nat → HttpOutcome JsonField) :
    Nat → Nat → Except PyExc Unit × List Event
  | _, 0 => (.error (.runtimeError .generationTimedOut), [])
  | attempt, remaining + 1 =>
    match hb attempt with
    | .transportFail => (.error (.requestException .connectionFailure), [.polled])
    | .resp code body =>
      if isHttpError code then
        (.error (.requestException (.httpError code)), [.polled])
      else
        match body with
        | .error _ => (.error (.jsonDecodeError .invalidJson), [.polled])
        | .ok none => (.error (.otherExc .missingKey), [.polled])
        | .ok (some status) =>
          if status = doneStr then (.ok (), [.polled])
          else if status = errorStr then
            (.error (.runtimeError .generationFailed), [.polled])
          else
            let r := pollLoop hb (attempt + 1) remaining
            (r.1, .polled :: .slept :: r.2)

/-- The `except` clauses of `get_map` (main.py lines 295-300): every
exception escaping the `try` body is re-raised as a `RuntimeError` whose
message prefix is chosen by the caught exception's class
("Network error occurred", "Invalid JSON response", "Unexpected error"). -/
def handleGetMapExc : PyExc → PyExc
  | .requestException m => .runtimeError (.networkErrorOccurred m)
  | .jsonDecodeError m => .runtimeError (.invalidJsonResponse m)
  | .runtimeError m => .runtimeError (.unexpectedError m)
  | .otherExc m => .runtimeError (.unexpectedError m)

/-- The `try` body of `get_map` (main.py lines 189-293): read tags, derive
the output name, submit (413 is checked before `raise_for_status`, line
223), decode the job id, poll, download, write the archive, extract it, and
unlink the archive if the extraction directory exists (lines 288-289).
`s` is the filesystem state at the derived output name; the trace records
the run's observable actions in order. -/
def get_map_body (tt : Except Unit TinyTagOut) (net : NetOracle)
    (fileName : List Char) (s : NameState) :
    Except PyExc Unit × NameState × List Event :=
  match get_mp3_tag tt with
  | .error e => (.error e, s, [])
  | .ok tags =>
    let _output_filename := derive_name (pathStem fileName) tags.1 tags.2.1
    match net.submitResp with
    | .transportFail => (.error (.requestException .connectionFailure), s, [])
    | .resp code body =>
      if code = 413 then (.error (.runtimeError .sizeLimitExceeded), s, [])
      else if isHttpError code then
        (.error (.requestException (.httpError code)), s, [])
      else
        match body with
        | .error _ => (.error (.jsonDecodeError .invalidJson), s, [])
        | .ok none => (.error (.otherExc .missingKey), s, [])
        | .ok (some _mapId) =>
          match pollLoop net.heartbeat 0 max_attempts with
          | (.error e, tr) => (.error e, s, tr)
          | (.ok _, tr) =>
            match net.downloadResp with
            | .transportFail =>
              (.error (.requestException .connectionFailure), s, tr ++ [.downloaded])
            | .resp dcode _ =>
              if isHttpError dcode then
                (.error (.requestException (.httpError dcode)), s, tr ++ [.downloaded])
              else
                let s1 : NameState := { s with zip := true }
                match net.extractResult with
                | .error _ =>
                  (.error (.otherExc .badZip), s1, tr ++ [.downloaded, .wroteZip])
                | .ok created =>
                  let s2 : NameState := { s1 with dir := s1.dir || created }
                  if s2.dir then
                    (.ok (), { s2 with zip := false },
                      tr ++ [.downloaded, .wroteZip, .extracted, .deletedZip])
                  else
                    (.ok (), s2, tr ++ [.downloaded, .wroteZip, .extracted])

/-- `get_map` (main.py lines 163-300): the `try` body with its `except`
clauses wrapped around it. -/
def get_map (tt : Except Unit TinyTagOut) (net : NetOracle)
    (fileName : List Char) (s : NameState) :
    Except PyExc Unit × NameState × List Event :=
  let r := get_map_body tt net fileName s
  (r.1.mapError handleGetMapExc, r.2)

/-- One candidate audio file of the batch: its base name and the oracles
describing how the outside world answers while it is processed. -/
structure FileJob where
  name : List Char
  tinytag : Except Unit TinyTagOut
  net : NetOracle

/-- What `process_files` does with one file, as observable from its console
output: skipped by the exists-check, processed to completion, or a per-file
error caught by the `except` at main.py line 384. -/
inductive Report
  | skipped
  | succeeded
  | errorHandled (e : PyExc)
  deriving DecidableEq, Repr

/-- The output directory's contents: for each derived output name, the
state of `<name>.zip` and `<name>/`.  Names not in the list do not exist. -/
abbrev Fs := List (List Char × NameState)

/-- Look up the filesystem state at a derived name (first match wins). -/
def fsLookup (fs : Fs) (n : List Char) : NameState :=
  match fs.find? fun p => p.1 == n with
  | none => ⟨false, false⟩
  | some p => p.2

/-- Record the new state at a derived name. -/
def fsUpdate (fs : Fs) (n : List Char) (st : NameState) : Fs := (n, st) :: fs

/-- The per-file loop of `process_files` (main.py lines 372-386).  For each
file: derive the output name — this tag read happens OUTSIDE the per-file
`try`, so an exception from it propagates and aborts the whole batch; skip
the file when the archive or the extraction directory already exists;
otherwise run `get_map`, catching any exception it raises and continuing
with the next file. -/
def process_files : Fs → List FileJob → Except PyExc (List Report × Fs)
  | fs, [] => .ok ([], fs)
  | fs, job :: rest =>
    match get_output_filename job.name job.tinytag with
    | .error e => .error e
    | .ok oname =>
      let st := fsLookup fs oname
      if st.zip || st.dir then
        match process_files fs rest with
        | .error e => .error e
        | .ok (rs, fs') => .ok (.skipped :: rs, fs')
      else
        let r := get_map job.tinytag job.net job.name st
        let fs' := fsUpdate fs oname r.2.1
        match r.1 with
        | .ok _ =>
          match process_files fs' rest with
          | .error e => .error e
          | .ok (rs, fs'') => .ok (.succeeded :: rs, fs'')
        | .error e =>
          match process_files fs' rest with
          | .error e' => .error e'
          | .ok (rs, fs'') => .ok (.errorHandled e :: rs, fs'')

/-! ## Predicates used in the claim statements -/

/-- The tag read of a file succeeds (so `get_mp3_tag` does not raise). -/
def tagsReadable (tt : Except Unit TinyTagOut) : Bool :=
  match get_mp3_tag tt with
  | .ok _ => true
  | .error _ => false

/-- Poll attempt `n` gets a well-formed response carrying a non-terminal
status (neither `"DONE"` nor `"ERROR"`). -/
def nonTerminalAt (hb : Nat → HttpOutcome JsonField) (n : Nat) : Prop :=
  ∃ code status, hb n = .resp code (.ok (some status)) ∧
    isHttpError code = false ∧ status ≠ doneStr ∧ status ≠ errorStr

/-- Poll attempt `n` gets a well-formed response carrying status `"ERROR"`. -/
def errorAt (hb : Nat → HttpOutcome JsonField) (n : Nat) : Prop :=
  ∃ code, hb n = .resp code (.ok (some errorStr)) ∧ isHttpError code = false

/-- The submit POST gets a non-413, non-error response whose body decodes to
a job id. -/
def submitOk (net : NetOracle) : Prop :=
  ∃ code mapId, net.submitResp = .resp code (.ok (some mapId)) ∧
    code ≠ 413 ∧ isHttpError code = false

/-! ## Concrete fixtures used by the witness and counterexample theorems -/

/-- A file whose tags parse, with title, artist and cover art present. -/
def ttSample : Except Unit TinyTagOut :=
  .ok { title := some "Song".toList, artist := some "Artist".toList
        imagesAny := some (some [1, 2]) }

/-- A service that reports `DONE` on the first poll and delivers an archive
whose extraction creates the directory. -/
def netDoneSample : NetOracle :=
  { submitResp := .resp 200 (.ok (some "job1".toList))
    heartbeat := fun _ => .resp 200 (.ok (some doneStr))
    downloadResp := .resp 200 ()
    extractResult := .ok true }

/-- A service that never leaves the non-terminal status. -/
def netPendingSample : NetOracle :=
  { netDoneSample with heartbeat := fun _ => .resp 200 (.ok (some "PENDING".toList)) }

/-- A service that answers the submission with HTTP 413. -/
def net413Sample : NetOracle :=
  { netDoneSample with submitResp := .resp 413 (.error ()) }

/-- A service that reports `ERROR` on the first poll. -/
def netErrorSample : NetOracle :=
  { netDoneSample with heartbeat := fun _ => .resp 200 (.ok (some errorStr)) }

/-- A batch file that processes successfully end to end. -/
def goodJob : FileJob :=
  { name := "song.mp3".toList, tinytag := ttSample, net := netDoneSample }

/-- A batch file whose tag read raises (unreadable audio file). -/
def badTagJob : FileJob :=
  { name := "bad.mp3".toList, tinytag := .error (), net := netDoneSample }

/-- A batch file rejected with HTTP 413 on submission. -/
def job413 : FileJob := { goodJob with net := net413Sample }

/-- A second, unrelated batch file that processes successfully. -/
def otherJob : FileJob :=
  { name := "other.mp3".toList
    tinytag := .ok { title := some "Other".toList, artist := some "Band".toList
                     imagesAny := some (some []) }
    net := netDoneSample }

/-- An output directory that already contains the extracted folder for
`goodJob`'s derived name `"Song - Artist"`. -/
def fsWithSong : Fs := [("Song - Artist".toList, { zip := false, dir := true })]

/-! ## Helper lemmas about the sanitiser pieces -/

lemma pySplitAux_nil (acc : List Char) :
    pySplitAux [] acc = if acc = [] then [] else [acc.reverse] := rfl

lemma pySplitAux_cons (c : Char) (rest acc : List Char) :
    pySplitAux (c :: rest) acc =
      if isPySpace c then
        (if acc = [] then pySplitAux rest [] else acc.reverse :: pySplitAux rest [])
      else pySplitAux rest (c :: acc) := rfl

lemma mem_replaceInvalid_not_invalid {c : Char} {s : List Char}
    (hc : c ∈ replaceInvalid s) : c ∉ invalidChars := by
  unfold replaceInvalid at hc
  obtain ⟨c', _, hc'⟩ := List.mem_map.mp hc
  by_cases h : c' ∈ invalidChars
  · simp only [if_pos h] at hc'
    subst hc'
    decide
  · simp only [if_neg h] at hc'
    subst hc'
    exact h

lemma replaceInvalid_eq_self {s : List Char}
    (h : ∀ c ∈ s, c ∉ invalidChars) : replaceInvalid s = s := by
  unfold replaceInvalid
  induction s with
  | nil => rfl
  | cons a t ih =>
    simp only [List.map_cons, List.cons.injEq]
    constructor
    · exact if_neg (h a (List.mem_cons_self a t))
    · exact ih fun c hc => h c (List.mem_cons_of_mem a hc)

lemma mem_replaceInvalid_space {c : Char} {s : List Char}
    (hc : c ∈ replaceInvalid s) (hw : isPySpace c = true) : c ∈ s := by
  unfold replaceInvalid at hc
  obtain ⟨c', hc's, hc'⟩ := List.mem_map.mp hc
  by_cases h : c' ∈ invalidChars
  · simp only [if_pos h] at hc'
    subst hc'
    exact absurd hw (by decide)
  · simp only [if_neg h] at hc'
    subst hc'
    exact hc's

lemma mem_of_mem_dropWhile {c : Char} {p : Char → Bool} {l : List Char}
    (hc : c ∈ l.dropWhile p) : c ∈ l := by
  induction l with
  | nil => simp at hc
  | cons a t ih =>
    by_cases h : p a
    · rw [List.dropWhile_cons_of_pos h] at hc
      exact List.mem_cons_of_mem a (ih hc)
    · rw [List.dropWhile_cons_of_neg h] at hc
      exact hc

lemma mem_pyStrip {c : Char} {s : List Char} (hc : c ∈ pyStrip s) : c ∈ s := by
  unfold pyStrip at hc
  rw [List.mem_reverse] at hc
  have := mem_of_mem_dropWhile hc
  rw [List.mem_reverse] at this
  exact mem_of_mem_dropWhile this

lemma head?_dropWhile_false {p : Char → Bool} {l : List Char} {a : Char}
    (h : (l.dropWhile p).head? = some a) : p a = false := by
  induction l with
  | nil => simp at h
  | cons b t ih =>
    by_cases hb : p b
    · rw [List.dropWhile_cons_of_pos hb] at h
      exact ih h
    · rw [List.dropWhile_cons_of_neg hb] at h
      simp only [List.head?_cons, Option.some.injEq] at h
      subst h
      exact Bool.eq_false_iff.mpr hb

lemma dropWhile_eq_self_of_head? {p : Char → Bool} {l : List Char} {a : Char}
    (h : l.head? = some a) (ha : p a = false) : l.dropWhile p = l := by
  cases l with
  | nil => rfl
  | cons b t =>
    simp only [List.head?_cons, Option.some.injEq] at h
    subst h
    exact List.dropWhile_cons_of_neg (by simp [ha])

lemma getLast?_dropWhile {p : Char → Bool} {l : List Char}
    (h : l.dropWhile p ≠ []) : (l.dropWhile p).getLast? = l.getLast? := by
  induction l with
  | nil => simp at h
  | cons b t ih =>
    by_cases hb : p b
    · rw [List.dropWhile_cons_of_pos hb] at h ⊢
      rcases t with _ | ⟨c, t'⟩
      · simp at h
      · rw [ih h, List.getLast?_cons_cons]
    · rw [List.dropWhile_cons_of_neg hb]

lemma pyStrip_head? {s : List Char} {c : Char}
    (h : (pyStrip s).head? = some c) : isStripChar c = false := by
  unfold pyStrip at h
  rw [List.head?_reverse] at h
  have hne : (s.dropWhile isStripChar).reverse.dropWhile isStripChar ≠ [] := by
    intro hnil
    rw [hnil] at h
    simp at h
  rw [getLast?_dropWhile hne, List.getLast?_reverse] at h
  exact head?_dropWhile_false h

lemma pyStrip_getLast? {s : List Char} {c : Char}
    (h : (pyStrip s).getLast? = some c) : isStripChar c = false := by
  unfold pyStrip at h
  rw [List.getLast?_reverse] at h
  exact head?_dropWhile_false h

lemma pyStrip_eq_self {s : List Char}
    (h1 : ∀ a, s.head? = some a → isStripChar a = false)
    (h2 : ∀ b, s.getLast? = some b → isStripChar b = false) :
    pyStrip s = s := by
  rcases hh : s.head? with _ | a
  · rw [List.head?_eq_none_iff] at hh
    subst hh
    rfl
  · have hd1 : s.dropWhile isStripChar = s :=
      dropWhile_eq_self_of_head? hh (h1 a hh)
    rcases hl : s.getLast? with _ | b
    · rw [List.getLast?_eq_none_iff] at hl
      subst hl
      rfl
    · have hh2 : s.reverse.head? = some b := by rw [List.head?_reverse]; exact hl
      have hd2 : s.reverse.dropWhile isStripChar = s.reverse :=
        dropWhile_eq_self_of_head? hh2 (h2 b hl)
      unfold pyStrip
      rw [hd1, hd2, List.reverse_reverse]

lemma pySplitAux_mem {c : Char} {t : List Char} {l acc : List Char}
    (hct : c ∈ t) (ht : t ∈ pySplitAux l acc) : c ∈ l ∨ c ∈ acc := by
  induction l generalizing acc with
  | nil =>
    by_cases ha : acc = []
    · simp [pySplitAux, ha] at ht
    · simp only [pySplitAux, if_neg ha, List.mem_singleton] at ht
      subst ht
      right
      exact List.mem_reverse.mp hct
  | cons a rest ih =>
    by_cases hsp : isPySpace a
    · by_cases ha : acc = []
      · simp only [pySplitAux, if_pos hsp, if_pos ha] at ht
        rcases ih ht with h | h
        · exact Or.inl (List.mem_cons_of_mem a h)
        · simp at h
      · simp only [pySplitAux, if_pos hsp, if_neg ha, List.mem_cons] at ht
        rcases ht with ht | ht
        · subst ht
          exact Or.inr (List.mem_reverse.mp hct)
        · rcases ih ht with h | h
          · exact Or.inl (List.mem_cons_of_mem a h)
          · simp at h
    · simp only [pySplitAux, if_neg hsp] at ht
      rcases ih ht with h | h
      · exact Or.inl (List.mem_cons_of_mem a h)
      · rcases List.mem_cons.mp h with h | h
        · subst h
          exact Or.inl (List.mem_cons_self _ _)
        · exact Or.inr h

lemma pySplitAux_tok {t : List Char} {l acc : List Char}
    (ht : t ∈ pySplitAux l acc) (hacc : ∀ c ∈ acc, isPySpace c = false) :
    t ≠ [] ∧ ∀ c ∈ t, isPySpace c = false := by
  induction l generalizing acc with
  | nil =>
    by_cases ha : acc = []
    · simp [pySplitAux, ha] at ht
    · simp only [pySplitAux, if_neg ha, List.mem_singleton] at ht
      subst ht
      refine ⟨by simpa using ha, ?_⟩
      intro c hc
      exact hacc c (List.mem_reverse.mp hc)
  | cons a rest ih =>
    by_cases hsp : isPySpace a
    · by_cases ha : acc = []
      · simp only [pySplitAux, if_pos hsp, if_pos ha] at ht
        exact ih ht (by intro c hc; simp at hc)
      · simp only [pySplitAux, if_pos hsp, if_neg ha, List.mem_cons] at ht
        rcases ht with ht | ht
        · subst ht
          refine ⟨by simpa using ha, ?_⟩
          intro c hc
          exact hacc c (List.mem_reverse.mp hc)
        · exact ih ht (by intro c hc; simp at hc)
    · simp only [pySplitAux, if_neg hsp] at ht
      refine ih ht ?_
      intro c hc
      rcases List.mem_cons.mp hc with h | h
      · subst h
        exact Bool.eq_false_iff.mpr hsp
      · exact hacc c h

lemma pySplitAux_append_word {t : List Char} (l acc : List Char)
    (ht : ∀ c ∈ t, isPySpace c = false) :
    pySplitAux (t ++ l) acc = pySplitAux l (t.reverse ++ acc) := by
  induction t generalizing acc with
  | nil => simp
  | cons a t' ih =>
    have ha : isPySpace a = false := ht a (List.mem_cons_self a t')
    rw [List.cons_append, pySplitAux_cons, if_neg (by simp [ha]),
      ih (a :: acc) (fun c hc => ht c (List.mem_cons_of_mem a hc)),
      List.reverse_cons, List.append_assoc, List.singleton_append]

lemma pySplitAux_head_acc (l acc : List Char) (ha : acc ≠ []) :
    ∃ t ts r, pySplitAux l acc = t :: ts ∧ t = acc.reverse ++ r := by
  induction l generalizing acc with
  | nil =>
    exact ⟨acc.reverse, [], [], by simp [pySplitAux, ha], by simp⟩
  | cons a rest ih =>
    by_cases hsp : isPySpace a
    · refine ⟨acc.reverse, pySplitAux rest [], [], ?_, by simp⟩
      simp [pySplitAux, hsp, ha]
    · obtain ⟨t, ts, r, heq, ht⟩ := ih (a :: acc) (by simp)
      refine ⟨t, ts, a :: r, ?_, ?_⟩
      · simp only [pySplitAux, hsp, Bool.false_eq_true, if_false]
        exact heq
      · rw [ht, List.reverse_cons, List.append_assoc]
        simp

lemma pySplitAux_getLast (l : List Char) {c : Char} (acc : List Char)
    (hl : l.getLast? = some c) (hc : isPySpace c = false) :
    ∃ ts t, pySplitAux l acc = ts ++ [t] ∧ t.getLast? = some c := by
  induction l generalizing acc with
  | nil => simp at hl
  | cons a rest ih =>
    rcases rest with _ | ⟨b, rest'⟩
    · simp only [List.getLast?_singleton, Option.some.injEq] at hl
      subst hl
      refine ⟨[], (a :: acc).reverse, ?_, ?_⟩
      · rw [pySplitAux_cons, if_neg (by simp [hc]), pySplitAux_nil,
          if_neg (by simp), List.nil_append]
      · rw [List.reverse_cons, List.getLast?_concat]
    · rw [List.getLast?_cons_cons] at hl
      by_cases hsp : isPySpace a
      · by_cases ha : acc = []
        · obtain ⟨ts, t, heq, ht⟩ := ih [] hl
          refine ⟨ts, t, ?_, ht⟩
          rw [pySplitAux_cons, if_pos hsp, if_pos ha, heq]
        · obtain ⟨ts, t, heq, ht⟩ := ih [] hl
          refine ⟨acc.reverse :: ts, t, ?_, ht⟩
          rw [pySplitAux_cons, if_pos hsp, if_neg ha, heq, List.cons_append]
      · obtain ⟨ts, t, heq, ht⟩ := ih (a :: acc) hl
        refine ⟨ts, t, ?_, ht⟩
        rw [pySplitAux_cons, if_neg hsp, heq]

lemma pyJoin_head? {t : List Char} (ts : List (List Char)) (ht : t ≠ []) :
    (pyJoin (t :: ts)).head? = t.head? := by
  rcases ts with _ | ⟨t', ts'⟩
  · rfl
  · rcases t with _ | ⟨a, t₁⟩
    · exact absurd rfl ht
    · rfl

lemma pyJoin_ne_nil {t : List Char} (ts : List (List Char)) (ht : t ≠ []) :
    pyJoin (t :: ts) ≠ [] := by
  rcases ts with _ | ⟨t', ts'⟩
  · exact ht
  · rcases t with _ | ⟨a, t₁⟩
    · exact absurd rfl ht
    · simp [pyJoin]

lemma pyJoin_getLast? {ts : List (List Char)} {t : List Char}
    (hne : ∀ u ∈ ts, u ≠ []) (hlast : ts.getLast? = some t) :
    (pyJoin ts).getLast? = t.getLast? := by
  induction ts with
  | nil => simp at hlast
  | cons t₀ ts' ih =>
    rcases ts' with _ | ⟨t₁, ts''⟩
    · simp only [List.getLast?_singleton, Option.some.injEq] at hlast
      subst hlast
      rfl
    · rw [List.getLast?_cons_cons] at hlast
      have h1 : pyJoin (t₀ :: t₁ :: ts'') = t₀ ++ ' ' :: pyJoin (t₁ :: ts'') := rfl
      rw [h1]
      have h2 : (' ' :: pyJoin (t₁ :: ts'')) ≠ [] := by simp
      rw [List.getLast?_append_of_ne_nil t₀ h2]
      have h3 : pyJoin (t₁ :: ts'') ≠ [] :=
        pyJoin_ne_nil ts'' (hne t₁ (by simp))
      have h4 : (' ' :: pyJoin (t₁ :: ts'')).getLast? = (pyJoin (t₁ :: ts'')).getLast? := by
        rcases h5 : pyJoin (t₁ :: ts'') with _ | ⟨a, m⟩
        · exact absurd h5 h3
        · rw [List.getLast?_cons_cons]
      rw [h4]
      exact ih (fun u hu => hne u (List.mem_cons_of_mem t₀ hu)) hlast

lemma mem_pyJoin {c : Char} {ts : List (List Char)} (hc : c ∈ pyJoin ts) :
    c = ' ' ∨ ∃ t ∈ ts, c ∈ t := by
  induction ts with
  | nil => simp [pyJoin] at hc
  | cons t₀ ts' ih =>
    rcases ts' with _ | ⟨t₁, ts''⟩
    · exact Or.inr ⟨t₀, by simp, hc⟩
    · have h1 : pyJoin (t₀ :: t₁ :: ts'') = t₀ ++ ' ' :: pyJoin (t₁ :: ts'') := rfl
      rw [h1, List.mem_append] at hc
      rcases hc with hc | hc
      · exact Or.inr ⟨t₀, by simp, hc⟩
      · rcases List.mem_cons.mp hc with hc | hc
        · exact Or.inl hc
        · rcases ih hc with h | ⟨t, htm, hct⟩
          · exact Or.inl h
          · exact Or.inr ⟨t, List.mem_cons_of_mem t₀ htm, hct⟩

lemma pySplit_pyJoin {ts : List (List Char)}
    (h : ∀ t ∈ ts, t ≠ [] ∧ ∀ c ∈ t, isPySpace c = false) :
    pySplit (pyJoin ts) = ts := by
  induction ts with
  | nil => rfl
  | cons t₀ ts' ih =>
    obtain ⟨ht₀, hws₀⟩ := h t₀ (by simp)
    rcases ts' with _ | ⟨t₁, ts''⟩
    · show pySplitAux (pyJoin [t₀]) [] = [t₀]
      have : pyJoin [t₀] = t₀ ++ [] := by simp [pyJoin]
      rw [this, pySplitAux_append_word [] [] hws₀]
      simp [pySplitAux, ht₀]
    · have h1 : pyJoin (t₀ :: t₁ :: ts'') = t₀ ++ ' ' :: pyJoin (t₁ :: ts'') := rfl
      show pySplitAux (pyJoin (t₀ :: t₁ :: ts'')) [] = t₀ :: t₁ :: ts''
      rw [h1, pySplitAux_append_word (' ' :: pyJoin (t₁ :: ts'')) [] hws₀]
      have hsp : isPySpace ' ' = true := by decide
      simp only [pySplitAux, hsp, if_true, List.append_nil]
      rw [if_neg (by simpa using ht₀), List.reverse_reverse]
      have := ih (fun t htm => h t (List.mem_cons_of_mem t₀ htm))
      rw [show pySplit (pyJoin (t₁ :: ts'')) = pySplitAux (pyJoin (t₁ :: ts'')) [] from rfl] at this
      rw [this]

/-- C4 (amended): the sanitiser `sanitize_filename` is idempotent on every
input whose whitespace characters are all the plain space `' '`.  (On
arbitrary inputs idempotence fails — see the counterexample theorem —
because `strip('. ')` does not strip other whitespace while `split()` does
consume it, which can expose a new leading/trailing period.) -/
theorem C4_sanitize_idempotent_on_plain_space_inputs (s : List Char)
    (h : ∀ c ∈ s, isPySpace c = true → c = ' ') :
    sanitize_filename (sanitize_filename s) = sanitize_filename s := by
  have hzchars : ∀ c ∈ pyStrip (replaceInvalid s), c ∉ invalidChars := fun c hc =>
    mem_replaceInvalid_not_invalid (mem_pyStrip hc)
  have hzspace : ∀ c ∈ pyStrip (replaceInvalid s), isPySpace c = true → c = ' ' :=
    fun c hc hw => h c (mem_replaceInvalid_space (mem_pyStrip hc) hw) hw
  have htok : ∀ t ∈ pySplit (pyStrip (replaceInvalid s)),
      t ≠ [] ∧ ∀ c ∈ t, isPySpace c = false := by
    intro t ht
    exact pySplitAux_tok ht (by intro c hc; cases hc)
  rcases hts : pySplit (pyStrip (replaceInvalid s)) with _ | ⟨t₀, ts'⟩
  · have hY : sanitize_filename s = [] := by
      unfold sanitize_filename
      rw [hts]
      rfl
    rw [hY]
    rfl
  · have hY : sanitize_filename s = pyJoin (t₀ :: ts') := by
      unfold sanitize_filename
      rw [hts]
    have hzne : pyStrip (replaceInvalid s) ≠ [] := by
      intro h0
      rw [h0] at hts
      simp [pySplit, pySplitAux] at hts
    obtain ⟨c₀, zrest, hzeq⟩ : ∃ c zr, pyStrip (replaceInvalid s) = c :: zr := by
      rcases hzz : pyStrip (replaceInvalid s) with _ | ⟨a, z'⟩
      · exact absurd hzz hzne
      · exact ⟨a, z', rfl⟩
    have hc₀ : (pyStrip (replaceInvalid s)).head? = some c₀ := by
      rw [hzeq]
      rfl
    have hc₀strip : isStripChar c₀ = false := pyStrip_head? hc₀
    have hc₀mem : c₀ ∈ pyStrip (replaceInvalid s) := by
      rw [hzeq]
      exact List.mem_cons_self _ _
    have hc₀ws : isPySpace c₀ = false := by
      cases hb : isPySpace c₀ with
      | false => rfl
      | true =>
        have hsp := hzspace c₀ hc₀mem hb
        rw [hsp] at hc₀strip
        exact absurd hc₀strip (by decide)
    have hsplit1 : pySplit (pyStrip (replaceInvalid s)) = pySplitAux zrest [c₀] := by
      rw [hzeq]
      show pySplitAux (c₀ :: zrest) [] = _
      rw [pySplitAux_cons, if_neg (by simp [hc₀ws])]
    obtain ⟨t, tsx, r, hteq, htval⟩ :=
      pySplitAux_head_acc zrest [c₀] (by simp)
    have hts' : t :: tsx = t₀ :: ts' := by
      rw [← hteq, ← hsplit1]
      exact hts
    have ht₀eq : t₀ = t := by
      injection hts' with h1 h2
      exact h1.symm
    have ht₀head : t₀.head? = some c₀ := by
      rw [ht₀eq, htval]
      rfl
    have ht₀ne : t₀ ≠ [] := (htok t₀ (by rw [hts]; exact List.mem_cons_self _ _)).1
    have hyhead : (pyJoin (t₀ :: ts')).head? = some c₀ := by
      rw [pyJoin_head? ts' ht₀ne, ht₀head]
    obtain ⟨cₗ, hcₗ⟩ : ∃ c, (pyStrip (replaceInvalid s)).getLast? = some c := by
      rcases hg : (pyStrip (replaceInvalid s)).getLast? with _ | c
      · rw [List.getLast?_eq_none_iff] at hg
        exact absurd hg hzne
      · exact ⟨c, rfl⟩
    have hcₗstrip : isStripChar cₗ = false := pyStrip_getLast? hcₗ
    have hcₗmem : cₗ ∈ pyStrip (replaceInvalid s) := by
      have hrev : (pyStrip (replaceInvalid s)).reverse.head? = some cₗ := by
        rw [List.head?_reverse]
        exact hcₗ
      rcases hzz : (pyStrip (replaceInvalid s)).reverse with _ | ⟨a, z'⟩
      · rw [hzz] at hrev
        simp at hrev
      · rw [hzz] at hrev
        simp only [List.head?_cons, Option.some.injEq] at hrev
        rw [← List.mem_reverse, hzz, hrev]
        exact List.mem_cons_self _ _
    have hcₗws : isPySpace cₗ = false := by
      cases hb : isPySpace cₗ with
      | false => rfl
      | true =>
        have hsp := hzspace cₗ hcₗmem hb
        rw [hsp] at hcₗstrip
        exact absurd hcₗstrip (by decide)
    obtain ⟨ts₂, tl, hsplit2, htl⟩ :=
      pySplitAux_getLast (pyStrip (replaceInvalid s)) [] hcₗ hcₗws
    have hylast : (pyJoin (t₀ :: ts')).getLast? = some cₗ := by
      have h5 : (t₀ :: ts').getLast? = some tl := by
        rw [← hts]
        show (pySplitAux (pyStrip (replaceInvalid s)) []).getLast? = some tl
        rw [hsplit2, List.getLast?_concat]
      rw [pyJoin_getLast? (fun u hu => (htok u (by rw [hts]; exact hu)).1) h5]
      exact htl
    have hrepl : replaceInvalid (pyJoin (t₀ :: ts')) = pyJoin (t₀ :: ts') := by
      apply replaceInvalid_eq_self
      intro c hc
      rcases mem_pyJoin hc with h' | ⟨t', htm, hct⟩
      · subst h'
        decide
      · have htm' : t' ∈ pySplit (pyStrip (replaceInvalid s)) := by
          rw [hts]
          exact htm
        rcases pySplitAux_mem hct htm' with h'' | h''
        · exact hzchars c h''
        · cases h''
    have hstrip : pyStrip (pyJoin (t₀ :: ts')) = pyJoin (t₀ :: ts') := by
      apply pyStrip_eq_self
      · intro a ha
        rw [hyhead] at ha
        injection ha with ha
        rw [← ha]
        exact hc₀strip
      · intro b hb
        rw [hylast] at hb
        injection hb with hb
        rw [← hb]
        exact hcₗstrip
    have hsplitY : pySplit (pyJoin (t₀ :: ts')) = t₀ :: ts' := by
      apply pySplit_pyJoin
      intro t' htm
      exact htok t' (by rw [hts]; exact htm)
    rw [hY]
    show sanitize_filename (pyJoin (t₀ :: ts')) = pyJoin (t₀ :: ts')
    unfold sanitize_filename
    rw [hrepl, hstrip, hsplitY]

/-! ## Lemmas about the polling loop -/

lemma pollLoop_succ_nonterminal {hb : Nat → HttpOutcome JsonField}
    {attempt code : Nat} {status : List Char} (r : Nat)
    (hhb : hb attempt = .resp code (.ok (some status)))
    (hcode : isHttpError code = false)
    (hdone : status ≠ doneStr) (herr : status ≠ errorStr) :
    pollLoop hb attempt (r + 1) =
      ((pollLoop hb (attempt + 1) r).1,
        .polled :: .slept :: (pollLoop hb (attempt + 1) r).2) := by
  simp only [pollLoop, hhb, hcode, hdone, herr]
  simp

lemma pollLoop_succ_error {hb : Nat → HttpOutcome JsonField}
    {attempt code : Nat} (r : Nat)
    (hhb : hb attempt = .resp code (.ok (some errorStr)))
    (hcode : isHttpError code = false) :
    pollLoop hb attempt (r + 1) =
      (.error (.runtimeError .generationFailed), [.polled]) := by
  have h1 : errorStr ≠ doneStr := by decide
  simp only [pollLoop, hhb, hcode, h1]
  simp

lemma pollLoop_events {hb : Nat → HttpOutcome JsonField} :
    ∀ r attempt e, e ∈ (pollLoop hb attempt r).2 →
      e = Event.polled ∨ e = Event.slept := by
  intro r
  induction r with
  | zero =>
    intro attempt e he
    simp [pollLoop] at he
  | succ r ih =>
    intro attempt e he
    rcases hhb : hb attempt with _ | ⟨code, body⟩
    · simp only [pollLoop, hhb] at he
      simp at he
      exact Or.inl he
    · by_cases hcode : isHttpError code
      · simp only [pollLoop, hhb, hcode] at he
        simp at he
        exact Or.inl he
      · rcases body with jerr | jopt
        · simp only [pollLoop, hhb, hcode] at he
          simp at he
          exact Or.inl he
        · rcases jopt with _ | status
          · simp only [pollLoop, hhb, hcode] at he
            simp at he
            exact Or.inl he
          · by_cases hdone : status = doneStr
            · simp only [pollLoop, hhb, hcode, hdone] at he
              simp at he
              exact Or.inl he
            · by_cases herr : status = errorStr
              · simp only [pollLoop, hhb, hcode, hdone, herr] at he
                rw [if_neg (by decide : ¬(errorStr = doneStr))] at he
                simp at he
                exact Or.inl he
              · simp only [pollLoop, hhb, hcode, hdone, herr] at he
                simp only [Bool.false_eq_true, if_false, List.mem_cons] at he
                rcases he with he | he | he
                · exact Or.inl he
                · exact Or.inr he
                · exact ih (attempt + 1) e he

lemma pollLoop_count_le {hb : Nat → HttpOutcome JsonField} :
    ∀ r attempt, ((pollLoop hb attempt r).2).count Event.polled ≤ r := by
  intro r
  induction r with
  | zero =>
    intro attempt
    simp [pollLoop]
  | succ r ih =>
    intro attempt
    rcases hhb : hb attempt with _ | ⟨code, body⟩
    · simp only [pollLoop, hhb]
      simp
    · by_cases hcode : isHttpError code
      · simp only [pollLoop, hhb, hcode]
        simp
      · rcases body with jerr | jopt
        · simp only [pollLoop, hhb, hcode]
          simp
        · rcases jopt with _ | status
          · simp only [pollLoop, hhb, hcode]
            simp
          · by_cases hdone : status = doneStr
            · simp only [pollLoop, hhb, hcode, hdone]
              simp
            · by_cases herr : status = errorStr
              · simp only [pollLoop, hhb, hcode, hdone, herr]
                rw [if_neg (by decide : ¬(errorStr = doneStr))]
                simp
              · simp only [pollLoop, hhb, hcode, hdone, herr]
                simp only [Bool.false_eq_true, if_false, List.count_cons]
                have h1 := ih (attempt + 1)
                have h2 : (if (Event.slept == Event.polled) = true then 1 else 0) = 0 := by
                  decide
                have h3 : (if (Event.polled == Event.polled) = true then 1 else 0) = 1 := by
                  decide
                rw [h2, h3]
                omega

lemma pollLoop_all_nonterminal {hb : Nat → HttpOutcome JsonField}
    (h : ∀ n, nonTerminalAt hb n) :
    ∀ r attempt, ∃ tr,
      pollLoop hb attempt r = (.error (.runtimeError .generationTimedOut), tr) ∧
        tr.count Event.polled = r ∧ tr.count Event.slept = r := by
  intro r
  induction r with
  | zero =>
    intro attempt
    exact ⟨[], rfl, rfl, rfl⟩
  | succ r ih =>
    intro attempt
    obtain ⟨code, status, hhb, hcode, hdone, herr⟩ := h attempt
    obtain ⟨tr, htr, hp, hs⟩ := ih (attempt + 1)
    have h2 : (if (Event.slept == Event.polled) = true then 1 else 0) = 0 := by decide
    have h3 : (if (Event.polled == Event.polled) = true then 1 else 0) = 1 := by decide
    have h4 : (if (Event.polled == Event.slept) = true then 1 else 0) = 0 := by decide
    have h5 : (if (Event.slept == Event.slept) = true then 1 else 0) = 1 := by decide
    refine ⟨.polled :: .slept :: tr, ?_, ?_, ?_⟩
    · rw [pollLoop_succ_nonterminal r hhb hcode hdone herr, htr]
    · simp only [List.count_cons, hp]
      rw [h2, h3]
    · simp only [List.count_cons, hs]
      rw [h4, h5]

lemma pollLoop_error_at {hb : Nat → HttpOutcome JsonField} :
    ∀ k r attempt, k < r → (∀ j, j < k → nonTerminalAt hb (attempt + j)) →
      errorAt hb (attempt + k) →
      ∃ tr, pollLoop hb attempt r = (.error (.runtimeError .generationFailed), tr) := by
  intro k
  induction k with
  | zero =>
    intro r attempt hk hpre herr
    obtain ⟨code, hhb, hcode⟩ := herr
    rcases r with _ | r
    · omega
    · rw [Nat.add_zero] at hhb
      exact ⟨[.polled], pollLoop_succ_error r hhb hcode⟩
  | succ k ih =>
    intro r attempt hk hpre herr
    rcases r with _ | r
    · omega
    · obtain ⟨code, status, hhb, hcode, hdone, herrS⟩ := hpre 0 (Nat.succ_pos k)
      rw [Nat.add_zero] at hhb
      have hpre' : ∀ j, j < k → nonTerminalAt hb (attempt + 1 + j) := by
        intro j hj
        have := hpre (j + 1) (by omega)
        have heq : attempt + (j + 1) = attempt + 1 + j := by omega
        rw [heq] at this
        exact this
      have herr' : errorAt hb (attempt + 1 + k) := by
        have heq : attempt + (k + 1) = attempt + 1 + k := by omega
        rw [heq] at herr
        exact herr
      obtain ⟨tr, htr⟩ := ih r (attempt + 1) (by omega) hpre' herr'
      refine ⟨.polled :: .slept :: tr, ?_⟩
      rw [pollLoop_succ_nonterminal r hhb hcode hdone herrS, htr]

/-! ## Lemmas about `get_map` -/

lemma tagsReadable_ok {tt : Except Unit TinyTagOut} (h : tagsReadable tt = true) :
    ∃ v, get_mp3_tag tt = .ok v := by
  unfold tagsReadable at h
  rcases hmt : get_mp3_tag tt with e | v
  · rw [hmt] at h
    simp at h
  · exact ⟨v, rfl⟩

lemma get_map_poll_error {tt : Except Unit TinyTagOut} {net : NetOracle}
    {fileName : List Char} {s : NameState} {e : PyExc} {tr : List Event}
    (htags : tagsReadable tt = true) (hsub : submitOk net)
    (hpoll : pollLoop net.heartbeat 0 max_attempts = (.error e, tr)) :
    get_map tt net fileName s = (.error (handleGetMapExc e), s, tr) := by
  obtain ⟨v, hmt⟩ := tagsReadable_ok htags
  obtain ⟨code, mapId, hsubEq, h413, hcode⟩ := hsub
  obtain ⟨title, artist, cover⟩ := v
  unfold get_map get_map_body
  simp only [hmt, hsubEq, h413, hcode, hpoll]
  simp [Except.mapError]

lemma get_map_polled_le :
    ∀ (tt : Except Unit TinyTagOut) (net : NetOracle) (fileName : List Char)
      (s : NameState),
      ((get_map tt net fileName s).2.2).count Event.polled ≤ max_attempts := by
  intro tt net fileName s
  have hpc : ((pollLoop net.heartbeat 0 max_attempts).2).count Event.polled ≤ max_attempts :=
    pollLoop_count_le max_attempts 0
  unfold get_map get_map_body
  rcases hmt : get_mp3_tag tt with e | v
  · simp only [hmt]
    simp
  · obtain ⟨title, artist, cover⟩ := v
    simp only [hmt]
    rcases hsub : net.submitResp with _ | ⟨code, body⟩
    · simp only [hsub]
      simp
    · simp only [hsub]
      by_cases h413 : code = 413
      · simp only [if_pos h413]
        simp
      · simp only [if_neg h413]
        by_cases hcode : isHttpError code
        · simp only [if_pos hcode]
          simp
        · simp only [if_neg hcode]
          rcases body with jerr | jopt
          · simp
          · rcases jopt with _ | mapId
            · simp
            · rcases hpoll : pollLoop net.heartbeat 0 max_attempts with ⟨res, tr⟩
              simp only [hpoll]
              rw [hpoll] at hpc
              simp only at hpc
              have hA : ∀ l2 : List Event, l2.count Event.polled = 0 →
                  (tr ++ l2).count Event.polled ≤ max_attempts := by
                intro l2 h0
                rw [List.count_append, h0]
                omega
              rcases res with e | u
              · exact hpc
              · rcases hdl : net.downloadResp with _ | ⟨dcode, dbody⟩
                · simp only [hdl]
                  exact hA _ (by decide)
                · simp only [hdl]
                  by_cases hdc : isHttpError dcode
                  · simp only [if_pos hdc]
                    exact hA _ (by decide)
                  · simp only [if_neg hdc]
                    rcases hext : net.extractResult with u' | created
                    · simp only [hext]
                      exact hA _ (by decide)
                    · simp only [hext]
                      split
                      · exact hA _ (by decide)
                      · exact hA _ (by decide)

/-! ## Claim theorems -/

/-- C9 (the code contradicts its own docstring here): `get_mp3_tag` promises
"empty bytes if not found" for the cover art, and indeed a parseable file
with missing title/artist (and even an image whose `data` is `None`) yields
empty values without an error — but a parseable file with NO embedded image
at all makes `tag.images.any` be `None`, so `tag.images.any.data` raises
`AttributeError` and the file is reported unreadable. -/
theorem C9_missing_cover_art_raises_for_parseable_file :
    get_mp3_tag (.ok { title := some ['T'], artist := some ['A'], imagesAny := none }) =
      .error (.runtimeError .failedReadTags) ∧
    get_mp3_tag (.ok { title := none, artist := none, imagesAny := some (some [7]) }) =
      .ok ([], [], [7]) ∧
    get_mp3_tag (.ok { title := none, artist := none, imagesAny := some none }) =
      .ok ([], [], []) :=
  ⟨rfl, rfl, rfl⟩

/-- C10: whatever the oracles do, a failing `get_map` surfaces exactly one
exception type at its boundary — `RuntimeError` — because each of its three
`except` clauses re-raises as `RuntimeError`. -/
theorem C10_pipeline_boundary_is_runtime_error (tt : Except Unit TinyTagOut)
    (net : NetOracle) (fileName : List Char) (s : NameState) :
    (get_map tt net fileName s).1 = .ok () ∨
      ∃ m, (get_map tt net fileName s).1 = .error (.runtimeError m) := by
  have hself : (get_map tt net fileName s).1 =
      (get_map_body tt net fileName s).1.mapError handleGetMapExc := rfl
  rcases hbody : (get_map_body tt net fileName s).1 with e | u
  · right
    rw [hself, hbody]
    cases e with
    | runtimeError m => exact ⟨.unexpectedError m, rfl⟩
    | requestException m => exact ⟨.networkErrorOccurred m, rfl⟩
    | jsonDecodeError m => exact ⟨.invalidJsonResponse m, rfl⟩
    | otherExc m => exact ⟨.unexpectedError m, rfl⟩
  · left
    rw [hself, hbody]
    rfl

/-- C3: for every file name and every readable tag set, the derived output
name is `sanitize(title) + " - " + sanitize(artist)` when both tags are
non-empty, and the file's base name with its extension stripped when either
tag is empty. -/
theorem C3_derived_output_name (fileName : List Char) (tt : Except Unit TinyTagOut)
    (title artist : List Char) (cover : List Nat)
    (h : get_mp3_tag tt = .ok (title, artist, cover)) :
    get_output_filename fileName tt =
      .ok (if title = [] ∨ artist = [] then pathStem fileName
        else sanitize_filename title ++ ' ' :: '-' :: ' ' :: sanitize_filename artist) := by
  unfold get_output_filename derive_name
  simp only [h]

theorem C3_witness :
    get_output_filename "song.mp3".toList ttSample =
      .ok (if "Song".toList = ([] : List Char) ∨ "Artist".toList = ([] : List Char) then
          pathStem "song.mp3".toList
        else sanitize_filename "Song".toList ++ ' ' :: '-' :: ' ' ::
          sanitize_filename "Artist".toList) :=
  C3_derived_output_name "song.mp3".toList ttSample "Song".toList "Artist".toList [1, 2] rfl

/-- C4 counterexample: on the input `"a.\t"` the sanitiser is NOT
idempotent: the tab is not in the strip set `'. '`, so the first pass
returns `"a."` (the trailing tab is consumed by `split()`), and the second
pass strips the now-trailing period, returning `"a"`. -/
theorem C4_counterexample_tab_exposes_period :
    sanitize_filename (sanitize_filename ['a', '.', '\t']) ≠
      sanitize_filename ['a', '.', '\t'] := by
  decide

theorem C4_witness :
    (∀ c ∈ "  Song   name.. ".toList, isPySpace c = true → c = ' ') ∧
      sanitize_filename (sanitize_filename "  Song   name.. ".toList) =
        sanitize_filename "  Song   name.. ".toList :=
  ⟨by decide, C4_sanitize_idempotent_on_plain_space_inputs _ (by decide)⟩

/-- C2: when every poll gets a well-formed non-terminal answer, `get_map`
ends in the timeout error after exactly `max_attempts = 75` polls and 75
fourteen-second sleeps (75 × 14 s = 1050 s, between 17 and 18 minutes), the
filesystem state is untouched, and no run of `get_map` ever polls more than
`max_attempts` times. -/
theorem C2_poll_timeout_after_max_attempts (tt : Except Unit TinyTagOut)
    (net : NetOracle) (fileName : List Char) (s : NameState)
    (htags : tagsReadable tt = true) (hsub : submitOk net)
    (hpolls : ∀ n, nonTerminalAt net.heartbeat n) :
    (∃ tr, get_map tt net fileName s =
        (.error (.runtimeError (.unexpectedError .generationTimedOut)), s, tr) ∧
      tr.count Event.polled = max_attempts ∧ tr.count Event.slept = max_attempts) ∧
    max_attempts = 75 ∧ sleep_interval = 14 ∧
    max_attempts * sleep_interval = 1050 ∧
    17 * 60 ≤ max_attempts * sleep_interval ∧
    max_attempts * sleep_interval ≤ 18 * 60 ∧
    (∀ (tt' : Except Unit TinyTagOut) (net' : NetOracle) (fileName' : List Char)
      (s' : NameState),
      ((get_map tt' net' fileName' s').2.2).count Event.polled ≤ max_attempts) := by
  obtain ⟨tr, hpoll, hp, hs2⟩ := pollLoop_all_nonterminal hpolls max_attempts 0
  refine ⟨⟨tr, ?_, hp, hs2⟩, rfl, rfl, by decide, by decide, by decide, get_map_polled_le⟩
  rw [get_map_poll_error htags hsub hpoll]
  rfl

theorem C2_witness :
    (∃ tr, get_map ttSample netPendingSample "song.mp3".toList ⟨false, false⟩ =
        (.error (.runtimeError (.unexpectedError .generationTimedOut)),
          ⟨false, false⟩, tr) ∧
      tr.count Event.polled = max_attempts ∧ tr.count Event.slept = max_attempts) ∧
    max_attempts = 75 ∧ sleep_interval = 14 ∧
    max_attempts * sleep_interval = 1050 ∧
    17 * 60 ≤ max_attempts * sleep_interval ∧
    max_attempts * sleep_interval ≤ 18 * 60 ∧
    (∀ (tt' : Except Unit TinyTagOut) (net' : NetOracle) (fileName' : List Char)
      (s' : NameState),
      ((get_map tt' net' fileName' s').2.2).count Event.polled ≤ max_attempts) :=
  C2_poll_timeout_after_max_attempts ttSample netPendingSample "song.mp3".toList
    ⟨false, false⟩ (by decide) ⟨200, "job1".toList, rfl, by decide, by decide⟩
    (fun n => ⟨200, "PENDING".toList, rfl, by decide, by decide, by decide⟩)

/-- C6: if some reachable poll attempt `k` answers `ERROR` (all earlier ones
being non-terminal), `get_map` fails with the map-generation-failed
`RuntimeError`, the filesystem state at the output name is unchanged, and
neither the download GET nor an archive write ever happens. -/
theorem C6_error_status_fails_without_download (tt : Except Unit TinyTagOut)
    (net : NetOracle) (fileName : List Char) (s : NameState) (k : Nat)
    (htags : tagsReadable tt = true) (hsub : submitOk net)
    (hk : k < max_attempts)
    (hpre : ∀ j, j < k → nonTerminalAt net.heartbeat j)
    (herr : errorAt net.heartbeat k) :
    ∃ tr, get_map tt net fileName s =
        (.error (.runtimeError (.unexpectedError .generationFailed)), s, tr) ∧
      Event.downloaded ∉ tr ∧ Event.wroteZip ∉ tr := by
  have hpre' : ∀ j, j < k → nonTerminalAt net.heartbeat (0 + j) := by
    intro j hj
    rw [Nat.zero_add]
    exact hpre j hj
  have herr' : errorAt net.heartbeat (0 + k) := by
    rw [Nat.zero_add]
    exact herr
  obtain ⟨tr, hpoll⟩ := pollLoop_error_at k max_attempts 0 hk hpre' herr'
  have hev : ∀ e ∈ tr, e = Event.polled ∨ e = Event.slept := by
    intro e he
    have h2 : e ∈ (pollLoop net.heartbeat 0 max_attempts).2 := by
      rw [hpoll]
      exact he
    exact pollLoop_events max_attempts 0 e h2
  refine ⟨tr, ?_, ?_, ?_⟩
  · rw [get_map_poll_error htags hsub hpoll]
    rfl
  · intro hmem
    rcases hev _ hmem with h | h <;> exact absurd h (by decide)
  · intro hmem
    rcases hev _ hmem with h | h <;> exact absurd h (by decide)

theorem C6_witness :
    ∃ tr, get_map ttSample netErrorSample "song.mp3".toList ⟨false, false⟩ =
        (.error (.runtimeError (.unexpectedError .generationFailed)),
          ⟨false, false⟩, tr) ∧
      Event.downloaded ∉ tr ∧ Event.wroteZip ∉ tr :=
  C6_error_status_fails_without_download ttSample netErrorSample
    "song.mp3".toList ⟨false, false⟩ 0 (by decide)
    ⟨200, "job1".toList, rfl, by decide, by decide⟩ (by decide)
    (fun j hj => absurd hj (by omega)) ⟨200, rfl, by decide⟩

/-- C5: after a SUCCESSFUL `get_map` run, the archive and the extraction
directory never both exist at the derived output name — the source deletes
the archive whenever the extraction directory exists (main.py lines
288-289), and when it keeps the archive the directory does not exist.  This
holds for every initial filesystem state. -/
theorem C5_no_archive_beside_extraction (tt : Except Unit TinyTagOut)
    (net : NetOracle) (fileName : List Char) (s s' : NameState) (tr : List Event)
    (h : get_map tt net fileName s = (.ok (), s', tr)) :
    ¬(s'.zip = true ∧ s'.dir = true) := by
  have h1 : (get_map_body tt net fileName s).1.mapError handleGetMapExc = .ok () :=
    congrArg Prod.fst h
  have h2 : (get_map_body tt net fileName s).2 = (s', tr) := congrArg Prod.snd h
  have hb : get_map_body tt net fileName s = (.ok (), s', tr) := by
    rcases hres : (get_map_body tt net fileName s).1 with e | u
    · rw [hres] at h1
      simp [Except.mapError] at h1
    · have heta : get_map_body tt net fileName s =
          ((get_map_body tt net fileName s).1, (get_map_body tt net fileName s).2) := rfl
      rw [heta, hres, h2]
  clear h h1 h2
  unfold get_map_body at hb
  rcases hmt : get_mp3_tag tt with e | v
  · simp only [hmt] at hb
    simp at hb
  · obtain ⟨title, artist, cover⟩ := v
    simp only [hmt] at hb
    rcases hsub : net.submitResp with _ | ⟨code, body⟩
    · simp only [hsub] at hb
      simp at hb
    · simp only [hsub] at hb
      by_cases h413 : code = 413
      · rw [if_pos h413] at hb
        simp at hb
      · rw [if_neg h413] at hb
        by_cases hcode : isHttpError code
        · rw [if_pos hcode] at hb
          simp at hb
        · rw [if_neg hcode] at hb
          rcases body with jerr | jopt
          · simp at hb
          · rcases jopt with _ | mapId
            · simp at hb
            · rcases hpoll : pollLoop net.heartbeat 0 max_attempts with ⟨res, tr'⟩
              simp only [hpoll] at hb
              rcases res with e | u
              · simp at hb
              · rcases hdl : net.downloadResp with _ | ⟨dcode, dbody⟩
                · simp only [hdl] at hb
                  simp at hb
                · simp only [hdl] at hb
                  by_cases hdc : isHttpError dcode
                  · rw [if_pos hdc] at hb
                    simp at hb
                  · rw [if_neg hdc] at hb
                    rcases hext : net.extractResult with u' | created
                    · simp only [hext] at hb
                      simp at hb
                    · simp only [hext] at hb
                      split at hb
                      · simp only [Prod.mk.injEq] at hb
                        obtain ⟨-, h2, -⟩ := hb
                        intro hcontra
                        rw [← h2] at hcontra
                        simp at hcontra
                      · next hdir =>
                        simp only [Prod.mk.injEq] at hb
                        obtain ⟨-, h2, -⟩ := hb
                        intro hcontra
                        rw [← h2] at hcontra
                        exact hdir (by simpa using hcontra.2)

theorem C5_witness :
    ¬((⟨false, true⟩ : NameState).zip = true ∧
      (⟨false, true⟩ : NameState).dir = true) :=
  C5_no_archive_beside_extraction ttSample netDoneSample "song.mp3".toList
    ⟨false, false⟩ ⟨false, true⟩
    [.polled, .downloaded, .wroteZip, .extracted, .deletedZip] (by decide)

/-- C1 counterexample: the spec claims EVERY per-file error — including an
`UnreadableAudioFile` raised while reading the file's metadata — is caught
per file and the batch continues.  In the source, `get_output_filename`
(which reads the tags) is called at main.py line 373, OUTSIDE the per-file
`try` starting at line 381, so an unreadable first file aborts the whole
run: the second (perfectly processable) file is never reached. -/
theorem C1_counterexample_unreadable_file_aborts_batch :
    process_files [] [badTagJob, goodJob] =
      .error (.runtimeError .failedReadTags) := by
  decide

/-- C1 (amended): every error raised INSIDE `get_map` — submit, poll,
download and extraction failures of any kind — is caught per file by the
`except` at main.py line 384 and the batch continues with one report per
file; only a failing tag read during the skip-check (outside the `try`)
aborts the batch. -/
theorem C1_pipeline_errors_isolated_per_file (fs : Fs) (jobs : List FileJob)
    (h : ∀ j ∈ jobs, tagsReadable j.tinytag = true) :
    ∃ rs fs', process_files fs jobs = .ok (rs, fs') ∧
      rs.length = jobs.length := by
  induction jobs generalizing fs with
  | nil => exact ⟨[], fs, rfl, rfl⟩
  | cons job rest ih =>
    have hj := h job (List.mem_cons_self _ _)
    have hrest : ∀ j ∈ rest, tagsReadable j.tinytag = true :=
      fun j hj' => h j (List.mem_cons_of_mem _ hj')
    obtain ⟨v, hmt⟩ := tagsReadable_ok hj
    obtain ⟨title, artist, cover⟩ := v
    have honame : get_output_filename job.name job.tinytag =
        .ok (derive_name (pathStem job.name) title artist) := by
      unfold get_output_filename
      simp only [hmt]
    set oname := derive_name (pathStem job.name) title artist with honamedef
    by_cases hsk : ((fsLookup fs oname).zip || (fsLookup fs oname).dir) = true
    · obtain ⟨rs, fs', hrec, hlen⟩ := ih fs hrest
      refine ⟨.skipped :: rs, fs', ?_, by simp [hlen]⟩
      simp only [process_files, honame]
      rw [if_pos hsk]
      simp only [hrec]
    · rcases hr : (get_map job.tinytag job.net job.name (fsLookup fs oname)).1 with e | u
      · obtain ⟨rs, fs', hrec, hlen⟩ :=
          ih (fsUpdate fs oname
            (get_map job.tinytag job.net job.name (fsLookup fs oname)).2.1) hrest
        refine ⟨.errorHandled e :: rs, fs', ?_, by simp [hlen]⟩
        simp only [process_files, honame]
        rw [if_neg hsk]
        simp only [hr, hrec]
      · obtain ⟨rs, fs', hrec, hlen⟩ :=
          ih (fsUpdate fs oname
            (get_map job.tinytag job.net job.name (fsLookup fs oname)).2.1) hrest
        refine ⟨.succeeded :: rs, fs', ?_, by simp [hlen]⟩
        simp only [process_files, honame]
        rw [if_neg hsk]
        simp only [hr, hrec]

theorem C1_witness :
    ∃ rs fs', process_files [] [job413, goodJob] = .ok (rs, fs') ∧
      rs.length = [job413, goodJob].length :=
  C1_pipeline_errors_isolated_per_file [] [job413, goodJob] (by decide)

/-- C7: when the archive or the extraction directory already exists at a
file's derived output name, `process_files` skips that file (no pipeline
run, no filesystem change) and processes the remaining files exactly as it
would have without it. -/
theorem C7_skip_existing_output (fs : Fs) (job : FileJob) (rest : List FileJob)
    (oname : List Char)
    (h1 : get_output_filename job.name job.tinytag = .ok oname)
    (h2 : ((fsLookup fs oname).zip || (fsLookup fs oname).dir) = true) :
    process_files fs (job :: rest) =
      Except.map (fun p => (Report.skipped :: p.1, p.2)) (process_files fs rest) := by
  simp only [process_files, h1]
  rw [if_pos h2]
  rcases hrec : process_files fs rest with e | p <;> simp [hrec, Except.map]

theorem C7_witness :
    process_files fsWithSong (goodJob :: [otherJob]) =
      Except.map (fun p => (Report.skipped :: p.1, p.2))
        (process_files fsWithSong [otherJob]) :=
  C7_skip_existing_output fsWithSong goodJob [otherJob] "Song - Artist".toList
    (by decide) (by decide)

/-- C8: an HTTP 413 answer to the submission makes that file fail with the
size/duration-limit `RuntimeError` (main.py line 224 — checked before
`raise_for_status`), the failure is caught per file, and the batch
continues with the remaining files. -/
theorem C8_payload_too_large_isolated (fs : Fs) (job : FileJob)
    (rest : List FileJob) (oname : List Char) (body : JsonField)
    (h1 : get_output_filename job.name job.tinytag = .ok oname)
    (h2 : job.net.submitResp = .resp 413 body)
    (h3 : ((fsLookup fs oname).zip || (fsLookup fs oname).dir) = false) :
    process_files fs (job :: rest) =
      Except.map
        (fun p => (Report.errorHandled
          (.runtimeError (.unexpectedError .sizeLimitExceeded)) :: p.1, p.2))
        (process_files (fsUpdate fs oname (fsLookup fs oname)) rest) := by
  have hmtE : ∃ v, get_mp3_tag job.tinytag = .ok v := by
    unfold get_output_filename at h1
    rcases hx : get_mp3_tag job.tinytag with e | v
    · rw [hx] at h1
      simp at h1
    · exact ⟨v, rfl⟩
  obtain ⟨⟨title, artist, cover⟩, hmt⟩ := hmtE
  have hgm : get_map job.tinytag job.net job.name (fsLookup fs oname) =
      (.error (.runtimeError (.unexpectedError .sizeLimitExceeded)),
        fsLookup fs oname, []) := by
    unfold get_map get_map_body
    simp only [hmt, h2]
    simp [Except.mapError, handleGetMapExc]
  simp only [process_files, h1]
  rw [if_neg (by simp [h3])]
  simp only [hgm]
  rcases hrec : process_files (fsUpdate fs oname (fsLookup fs oname)) rest with e | p <;>
    simp [hrec, Except.map]

theorem C8_witness :
    process_files [] (job413 :: [goodJob]) =
      Except.map
        (fun p => (Report.errorHandled
          (.runtimeError (.unexpectedError .sizeLimitExceeded)) :: p.1, p.2))
        (process_files
          (fsUpdate [] "Song - Artist".toList (fsLookup [] "Song - Artist".toList))
          [goodJob]) :=
  C8_payload_too_large_isolated [] job413 [goodJob] "Song - Artist".toList
    (.error ()) (by decide) rfl (by decide)

end BeatSage
